import Mathlib

/-!
Shallow embedding of the section-aware configuration search engine of this
repository: the function `searchConfig` that appears, with identical logic,
in `search_config.py` (lines 95-125) and `pd-search_config.py` (lines
98-128), together with the data shapes it consumes, and theorems settling
the specification claims about it.

Modelling conventions:

* A Python check dictionary (an element of `input_strings`, and likewise the
  verdict records built by the loop body) is an insertion-ordered association
  list from string keys to string values (`PyDict`).  All values occurring in
  the code are strings.  A missing key read (`item["match"]` with no such
  key) is a `KeyError`, modelled with `Except`.
* A configuration record (an element of `config_list`) is modelled by the two
  fields `searchConfig` actually reads, `hostname` and `text`; the download
  glue always populates both.
* The regular expression built at line 111 of `search_config.py`
  (line 114 of `pd-search_config.py`),

    `pattern = f'(^{item["section"]}.*$[\n\r]*(?:^\s.*$[\n\r]*)*)'`

  compiled with `re.MULTILINE` and applied with `regex.search`, is embedded
  by hand as `findSecBlock` below.  The section string is interpolated into
  the pattern unescaped.  The embedding is faithful on the following domain,
  and every general theorem carries the corresponding hypotheses:
  - the section string contains none of the metacharacters of Python regex
    syntax except possibly `'.'` (whose wildcard meaning is modelled), and
    no newline or carriage return (`secEmbeddable`);
  - the document text contains no carriage return (`noCR`), so that the
    character class `[\n\r]` degenerates to a run of `'\n'` and `^` line
    starts coincide with positions after `'\n'`.
* Python substring containment (`in` on strings) is `strIn`; `"x" in "y"`
  over empty strings included (`"" in s` is `True`).
* The printed progress messages are I/O with no effect on the returned
  value and are not modelled.
-/

/-- A Python dictionary with string keys and string values, as used for the
check items of `INPUT_DATA` and for the verdict records `searchConfig`
appends to `result`.  Modelled as an insertion-ordered association list. -/
abbrev PyDict := List (String × String)

deriving instance DecidableEq for Except

/-- `d[k]` as a total lookup: `some v` when the key is present (first
binding wins, Python dictionaries have unique keys), `none` otherwise.
`(dictGet d k).isSome` is Python's `k in d.keys()`. -/
def dictGet (d : PyDict) (k : String) : Option String :=
  (d.find? (fun p => p.1 == k)).map (fun p => p.2)

/-- Python dictionary assignment `d[k] = v`: replaces the value in place if
the key is present (keeping its position), otherwise appends the new binding
at the end (Python dictionaries preserve insertion order). -/
def dictSet (d : PyDict) (k : String) (v : String) : PyDict :=
  if (d.find? (fun p => p.1 == k)).isSome then
    d.map (fun p => if p.1 == k then (k, v) else p)
  else d ++ [(k, v)]

/-- The fields of a configuration record that `searchConfig` reads:
`conf["hostname"]` and `conf["text"]`.  (The download glue also stores
`hash` and `lastChangeAt`; they are never read by the search engine.) -/
structure Conf where
  hostname : String
  text : String
deriving DecidableEq, Repr

/-- The characters matched by Python's regex class `\s` on `str` patterns
(Unicode mode): the ASCII whitespace characters plus the Unicode whitespace
code points.  The continuation part `(?:^\s.*$[\n\r]*)*` of the section
pattern tests the first character of each continuation line with `\s`. -/
def isPySpace (c : Char) : Bool :=
  c = ' ' || c = '\t' || c = '\n' || c = '\x0b' || c = '\x0c' || c = '\r' ||
  c = '\x1c' || c = '\x1d' || c = '\x1e' || c = '\x1f' || c = '\x85' ||
  c = '\xa0' || c = '\u1680' || ('\u2000' ≤ c && c ≤ '\u200a') ||
  c = '\u2028' || c = '\u2029' || c = '\u202f' || c = '\u205f' || c = '\u3000'

/-- Metacharacters of Python regex syntax other than `'.'`.  A section value
containing one of these (or a raw newline) is interpolated into the pattern
with a meaning this embedding does not model (or fails to compile at all,
e.g. an unbalanced `'('`); such sections are outside the embedding domain. -/
def reMeta : List Char :=
  ['^', '$', '*', '+', '?', '(', ')', '[', ']', '\x7b', '\x7d', '\\', '|']

/-- The section string is inside the embedding domain: none of the
metacharacters of `reMeta`, no newline, no carriage return.  `'.'` is
allowed and modelled as the regex wildcard. -/
def secEmbeddable (sec : List Char) : Bool :=
  sec.all (fun c => !reMeta.contains c && c ≠ '\n' && c ≠ '\r')

/-- The section string is embeddable and also free of `'.'`, so that the
interpolated pattern fragment matches exactly the literal section text. -/
def secLiteral (sec : List Char) : Bool :=
  secEmbeddable sec && sec.all (fun c => c ≠ '.')

/-- The text contains no carriage return, so `[\n\r]` runs are `'\n'` runs. -/
def noCR (t : List Char) : Bool := t.all (fun c => c ≠ '\r')

/-- One pattern character of the interpolated section string against one
subject character: `'.'` matches any character except a newline, and every
other (non-metacharacter) character matches only itself. -/
def reCharMatch (p c : Char) : Bool :=
  if p = '.' then c ≠ '\n' else p = c

/-- `secMatchesLine sec l` : the interpolated fragment `{section}` of the
pattern matches at the start of the line content `l` (character by
character, `'.'` as wildcard).  For a `secLiteral` section this is exactly
`sec.isPrefixOf l` (proved below). -/
def secMatchesLine : List Char → List Char → Bool
  | [], _ => true
  | _ :: _, [] => false
  | p :: ps, c :: cs => reCharMatch p c && secMatchesLine ps cs

/-- The lines of a text, splitting at `'\n'`.  The result is always
nonempty; a trailing newline yields a final empty line, mirroring the fact
that `^` of `re.MULTILINE` also matches at the position after a final
`'\n'`.  `joinL (linesOf t) = t` and no line contains `'\n'`. -/
def linesOf : List Char → List (List Char)
  | [] => [[]]
  | c :: cs =>
    if c = '\n' then [] :: linesOf cs
    else
      match linesOf cs with
      | [] => [[c]]
      | l :: ls => (c :: l) :: ls

/-- Inverse of `linesOf`: interleave the lines with `'\n'`. -/
def joinL : List (List Char) → List Char
  | [] => []
  | [l] => l
  | l :: ls => l ++ '\n' :: joinL ls

/-- The text consumed by the greedy tail `[\n\r]*(?:^\s.*$[\n\r]*)*` of the
section pattern, starting just after the end of the header line content.
Derivation from the pattern (on the `noCR` domain, `'\r'` never occurs):

* `$` consumes nothing; `[\n\r]*` greedily consumes the run of `'\n'`
  characters (the header's terminator and any immediately following blank
  lines) - state `true` (at a line start / inside a newline run).
* `(?:^\s.*$[\n\r]*)*` then iterates greedily: `^` holds (the previous
  character is `'\n'`), `\s` must match the first character of the line
  (state `true`, non-newline whitespace branch), `.*` consumes the rest of
  the line (state `false`), `$` consumes nothing and `[\n\r]*` again
  consumes the newline run (back to state `true`).
* at a line start whose first character is not whitespace, or at the end of
  the text, the iteration stops and - nothing remaining in the pattern -
  the greedy match is final.  -/
def contScan : Bool → List Char → List Char
  | _, [] => []
  | true, c :: cs =>
    if c = '\n' then c :: contScan true cs
    else if isPySpace c then c :: contScan false cs
    else []
  | false, c :: cs =>
    if c = '\n' then c :: contScan true cs
    else c :: contScan false cs

/-- `regex.search` of the section pattern over the line list of the text:
`^` restricts candidate positions to line starts, and `re.search` returns
the leftmost match, hence the first line whose content matches the
interpolated section fragment; the matched text (group 0 = group 1, the
whole pattern is one group) is that header line plus the greedy
continuation `contScan` of the remaining text. -/
def findSecLines (sec : List Char) : List (List Char) → Option (List Char)
  | [] => none
  | l :: ls =>
    if secMatchesLine sec l then
      some (l ++ contScan true (match ls with | [] => [] | _ :: _ => '\n' :: joinL ls))
    else findSecLines sec ls

/-- The embedding of `regex.search(conf["text"])` for the pattern
`(^{section}.*$[\n\r]*(?:^\s.*$[\n\r]*)*)` with `re.MULTILINE`:
`some block` is a successful search returning the matched text,
`none` a failed search. -/
def findSecBlock (sec t : List Char) : Option (List Char) :=
  findSecLines sec (linesOf t)

/-- Python substring containment `needle in haystack` on strings. -/
def strIn (needle : List Char) : List Char → Bool
  | [] => needle.isEmpty
  | c :: t => needle.isPrefixOf (c :: t) || strIn needle t

/-- The body of the double loop of `searchConfig`, lines 110-120 of
`search_config.py`: compute the value `present_in_conf` ("YES"/"NO") for
one check item against one configuration, or raise `KeyError` when the
`match` key is read but absent.

* `"section" in item.keys()`: build the section pattern and search; if a
  block is found, `present_in_conf = "YES" if item["match"] in section[0]
  else "NO"` (reading `item["match"]` raises if the key is missing); if no
  block is found, `present_in_conf = "NO"` without reading `item["match"]`.
* no `section` key: `present_in_conf` is `"YES"` iff
  `item["match"] in conf["text"]` (again raising on a missing key). -/
def searchOne (item : PyDict) (conf : Conf) : Except String String :=
  match dictGet item "section" with
  | some sec =>
    match findSecBlock sec.data conf.text.data with
    | some block =>
      match dictGet item "match" with
      | none => Except.error "KeyError: match"
      | some m => Except.ok (if strIn m.data block then "YES" else "NO")
    | none => Except.ok "NO"
  | none =>
    match dictGet item "match" with
    | none => Except.error "KeyError: match"
    | some m => Except.ok (if strIn m.data conf.text.data then "YES" else "NO")

/-- Lines 121-122: the deep copy of the check item is extended (in place,
on the copy) with the hostname of the configuration and the computed
`configured` value; this record is what `searchConfig` appends to `result`.
`copy.deepcopy` on a flat string dictionary is value copying, which is
implicit in this pure model (the heap model below makes it explicit). -/
def buildItem (item : PyDict) (conf : Conf) (configured : String) : PyDict :=
  dictSet (dictSet item "hostname" conf.hostname) "configured" configured

/-- The inner loop `for input_string in input_strings` of `searchConfig`
for one fixed configuration: each item yields one verdict record, and a
`KeyError` aborts the whole call (the Python exception propagates,
discarding `result`). -/
def searchConfItems (input_strings : List PyDict) (conf : Conf) :
    Except String (List PyDict) :=
  match input_strings with
  | [] => Except.ok []
  | item :: rest =>
    match searchOne item conf with
    | Except.error e => Except.error e
    | Except.ok present =>
      match searchConfItems rest conf with
      | Except.error e => Except.error e
      | Except.ok tail => Except.ok (buildItem item conf present :: tail)

/-- `searchConfig` of `search_config.py`, lines 95-125: the outer loop runs
over `config_list`, the inner loop over `input_strings`, appending one
verdict record per (configuration, item) pair to `result` in that order;
an uncaught `KeyError` discards everything. -/
def searchConfig (input_strings : List PyDict) (config_list : List Conf) :
    Except String (List PyDict) :=
  match config_list with
  | [] => Except.ok []
  | conf :: rest =>
    match searchConfItems input_strings conf with
    | Except.error e => Except.error e
    | Except.ok head =>
      match searchConfig input_strings rest with
      | Except.error e => Except.error e
      | Except.ok tail => Except.ok (head ++ tail)

/-! ## The second implementation: `searchConfig` of `pd-search_config.py`

Lines 98-128 of `pd-search_config.py` define a `searchConfig` whose loop
body is character-for-character the one of `search_config.py` (only the
progress message printed before the loop differs); in particular the
pattern f-string at line 114 is identical to the one at line 111 of
`search_config.py`, so the regex embedding `findSecBlock` and the helpers
`strIn`, `dictGet`, `dictSet` are shared, and the loop structure is
re-translated separately below. -/

/-- Lines 113-123 of `pd-search_config.py`: the loop body for one item and
one configuration. -/
def searchOnePd (item : PyDict) (conf : Conf) : Except String String :=
  match dictGet item "section" with
  | some sec =>
    match findSecBlock sec.data conf.text.data with
    | some block =>
      match dictGet item "match" with
      | none => Except.error "KeyError: match"
      | some m => Except.ok (if strIn m.data block then "YES" else "NO")
    | none => Except.ok "NO"
  | none =>
    match dictGet item "match" with
    | none => Except.error "KeyError: match"
    | some m => Except.ok (if strIn m.data conf.text.data then "YES" else "NO")

/-- Inner loop of the `pd-search_config.py` variant. -/
def searchConfItemsPd (input_strings : List PyDict) (conf : Conf) :
    Except String (List PyDict) :=
  match input_strings with
  | [] => Except.ok []
  | item :: rest =>
    match searchOnePd item conf with
    | Except.error e => Except.error e
    | Except.ok present =>
      match searchConfItemsPd rest conf with
      | Except.error e => Except.error e
      | Except.ok tail => Except.ok (buildItem item conf present :: tail)

/-- `searchConfig` of `pd-search_config.py`, lines 98-128. -/
def searchConfigPd (input_strings : List PyDict) (config_list : List Conf) :
    Except String (List PyDict) :=
  match config_list with
  | [] => Except.ok []
  | conf :: rest =>
    match searchConfItemsPd input_strings conf with
    | Except.error e => Except.error e
    | Except.ok head =>
      match searchConfigPd input_strings rest with
      | Except.error e => Except.error e
      | Except.ok tail => Except.ok (head ++ tail)

/-! ## Heap model

`searchConfig` receives its check items by reference: the Python loop body
does `item = copy.deepcopy(input_string)` and then assigns
`item["hostname"]` and `item["configured"]` on the copy.  To state the
frame property (the caller's check dictionaries are never mutated) the
object identity must be explicit, so this second model threads a heap of
dictionary cells: addresses are indices, the input check list is a list of
addresses, `deepcopy` allocates a fresh cell holding the same value, and
the two assignments update the fresh cell only.  Configurations are only
ever read, so they stay pure values. -/

/-- A heap of Python dictionary objects; an address is an index into
`cells`. -/
structure Heap where
  cells : List PyDict
deriving DecidableEq, Repr

/-- Dereference an address (reads of absent cells never occur in the
modelled runs; the default keeps the function total). -/
def heapLoad (h : Heap) (a : Nat) : PyDict := h.cells.getD a []

/-- `copy.deepcopy` style allocation: a fresh cell holding value `d`. -/
def heapAlloc (h : Heap) (d : PyDict) : Heap × Nat :=
  (⟨h.cells ++ [d]⟩, h.cells.length)

/-- In-place update of the object at address `a`. -/
def heapStore (h : Heap) (a : Nat) (d : PyDict) : Heap :=
  ⟨h.cells.set a d⟩

/-- Heap model of the loop body (lines 106-123 of `search_config.py`):
deep-copy the input item into a fresh cell, compute `present_in_conf` from
the copy (a `KeyError` leaves the heap with the copy allocated but nothing
mutated), then assign `item["hostname"]` and `item["configured"]` on the
fresh cell; the address of the fresh cell is what `result.append(item)`
appends. -/
def searchOneH (h : Heap) (a : Nat) (conf : Conf) : Heap × Except String Nat :=
  match heapAlloc h (heapLoad h a) with
  | (h1, a2) =>
    match searchOne (heapLoad h1 a2) conf with
    | Except.error e => (h1, Except.error e)
    | Except.ok present =>
      let h2 := heapStore h1 a2 (dictSet (heapLoad h1 a2) "hostname" conf.hostname)
      let h3 := heapStore h2 a2 (dictSet (heapLoad h2 a2) "configured" present)
      (h3, Except.ok a2)

/-- Heap model of the inner loop for one configuration. -/
def searchItemsH (h : Heap) (addrs : List Nat) (conf : Conf) :
    Heap × Except String (List Nat) :=
  match addrs with
  | [] => (h, Except.ok [])
  | a :: rest =>
    match searchOneH h a conf with
    | (h1, Except.error e) => (h1, Except.error e)
    | (h1, Except.ok a2) =>
      match searchItemsH h1 rest conf with
      | (h2, Except.error e) => (h2, Except.error e)
      | (h2, Except.ok tail) => (h2, Except.ok (a2 :: tail))

/-- Heap model of `searchConfig`: documents outer, checks inner; the result
is the list of addresses of the freshly built verdict records. -/
def searchConfigH (h : Heap) (addrs : List Nat) (confs : List Conf) :
    Heap × Except String (List Nat) :=
  match confs with
  | [] => (h, Except.ok [])
  | conf :: rest =>
    match searchItemsH h addrs conf with
    | (h1, Except.error e) => (h1, Except.error e)
    | (h1, Except.ok head) =>
      match searchConfigH h1 addrs rest with
      | (h2, Except.error e) => (h2, Except.error e)
      | (h2, Except.ok tail) => (h2, Except.ok (head ++ tail))

/-- `h2` extends `h`: every address already allocated in `h` holds the same
object in `h2`, and no allocated address disappears. -/
def heapLe (h h2 : Heap) : Prop :=
  h.cells.length ≤ h2.cells.length ∧
  ∀ a, a < h.cells.length → h2.cells[a]? = h.cells[a]?

/-! ## Specification-side definitions

These definitions follow the wording of the specification (not the code);
they exist to state refutations and corrected forms of the claims, and are
compared with the code-derived definitions above. -/

/-- The continuation lines of a section block as the specification's claim
describes them, amended only as the code forces: operating on the list of
lines after the header, a blank line contributes its newline and the block
goes on (the greedy `[\n\r]*` of the code swallows blank lines), a line
whose first character is whitespace is included with its newline, and the
first nonempty line starting with a non-whitespace character ends the
block.  The final element of a `linesOf` list stands for the position after
a trailing newline and has no newline of its own. -/
def contLinesSpec : List (List Char) → List Char
  | [] => []
  | [l] =>
    match l with
    | [] => []
    | c :: l2 => if isPySpace c then c :: l2 else []
  | l :: ls :: rest =>
    match l with
    | [] => '\n' :: contLinesSpec (ls :: rest)
    | c :: l2 =>
      if isPySpace c then (c :: l2) ++ '\n' :: contLinesSpec (ls :: rest)
      else []

/-- The section block as the specification's claim describes it (amended
for blank lines as above), built over the line list of the body: the first
line that begins with the literal section string is the header, the block
is the header plus `contLinesSpec` of the remaining lines, and there is no
block when no line begins with the section string. -/
def blockLinesSpec (sec : List Char) : List (List Char) → Option (List Char)
  | [] => none
  | [l] => if sec.isPrefixOf l then some l else none
  | l :: ls :: rest =>
    if sec.isPrefixOf l then some (l ++ '\n' :: contLinesSpec (ls :: rest))
    else blockLinesSpec sec (ls :: rest)

/-- The `configured` value of a well-formed check (one whose `match` key is
present), as a total function; on a `KeyError` run it falls back to "NO"
(never the case under the well-formedness hypotheses it is used with). -/
def presentVal (item : PyDict) (conf : Conf) : String :=
  match searchOne item conf with
  | Except.ok v => v
  | Except.error _ => "NO"

/-- `true` when no line of `t` begins with the literal string `sec`
(helper for stating counterexamples without binders). -/
def noHeaderLine (sec t : List Char) : Bool :=
  (linesOf t).all (fun l => !sec.isPrefixOf l)

/-- The optional `section` value of a check is inside the embedding domain
(no section at all, or an embeddable section string). -/
def secEmbeddableOpt : Option String → Bool
  | none => true
  | some s => secEmbeddable s.data

/-! ## Basic lemmas -/

theorem linesOf_cons_nl (cs : List Char) :
    linesOf ('\n' :: cs) = [] :: linesOf cs := by
  simp [linesOf]

theorem linesOf_cons_eq {c : Char} (h : ¬ c = '\n') {cs l : List Char}
    {ls : List (List Char)} (hcs : linesOf cs = l :: ls) :
    linesOf (c :: cs) = (c :: l) :: ls := by
  simp [linesOf, h, hcs]

theorem joinL_single (l : List Char) : joinL [l] = l := rfl

theorem joinL_cons₂ (l l2 : List Char) (ls : List (List Char)) :
    joinL (l :: l2 :: ls) = l ++ '\n' :: joinL (l2 :: ls) := rfl

theorem contLinesSpec_single_nil : contLinesSpec [[]] = [] := rfl

theorem contLinesSpec_single (c : Char) (l : List Char) :
    contLinesSpec [c :: l] = if isPySpace c then c :: l else [] := rfl

theorem contLinesSpec_nil_cons (l2 : List Char) (ls : List (List Char)) :
    contLinesSpec ([] :: l2 :: ls) = '\n' :: contLinesSpec (l2 :: ls) := rfl

theorem contLinesSpec_cons_cons (c : Char) (l l2 : List Char)
    (ls : List (List Char)) :
    contLinesSpec ((c :: l) :: l2 :: ls) =
      (if isPySpace c then (c :: l) ++ '\n' :: contLinesSpec (l2 :: ls)
       else []) := rfl

theorem contScan_nil (b : Bool) : contScan b [] = [] := by cases b <;> rfl

theorem contScan_true_cons (c : Char) (cs : List Char) :
    contScan true (c :: cs) =
      (if c = '\n' then c :: contScan true cs
       else if isPySpace c then c :: contScan false cs else []) := rfl

theorem contScan_false_cons (c : Char) (cs : List Char) :
    contScan false (c :: cs) =
      (if c = '\n' then c :: contScan true cs else c :: contScan false cs) := rfl

theorem secMatchesLine_eq_isPrefixOf {sec : List Char}
    (hsec : sec.all (fun c => c ≠ '.') = true) :
    ∀ l, secMatchesLine sec l = sec.isPrefixOf l := by
  induction sec with
  | nil => intro l; simp [secMatchesLine, List.isPrefixOf]
  | cons p ps ih =>
    intro l
    simp only [List.all_cons, Bool.and_eq_true, decide_eq_true_eq] at hsec
    cases l with
    | nil => simp [secMatchesLine, List.isPrefixOf]
    | cons c cs =>
      have ih2 := ih (by simpa using hsec.2) cs
      by_cases hpc : p = c
      · subst hpc
        show (reCharMatch p p && secMatchesLine ps cs) = (p == p && ps.isPrefixOf cs)
        rw [ih2]
        simp [reCharMatch, hsec.1]
      · have hbeq : (p == c) = false := beq_eq_false_iff_ne.mpr hpc
        show (reCharMatch p c && secMatchesLine ps cs) = (p == c && ps.isPrefixOf cs)
        simp [reCharMatch, hsec.1, hpc, hbeq]

theorem linesOf_ne_nil (t : List Char) : linesOf t ≠ [] := by
  cases t with
  | nil => simp [linesOf]
  | cons c cs =>
    simp only [linesOf]
    split
    · simp
    · split <;> simp

theorem joinL_cons_cons (c : Char) (l : List Char) (ls : List (List Char)) :
    joinL ((c :: l) :: ls) = c :: joinL (l :: ls) := by
  cases ls <;> rfl

theorem joinL_linesOf (t : List Char) : joinL (linesOf t) = t := by
  induction t with
  | nil => rfl
  | cons c cs ih =>
    rcases hcs : linesOf cs with _ | ⟨l, ls⟩
    · exact absurd hcs (linesOf_ne_nil cs)
    rw [hcs] at ih
    by_cases h : c = '\n'
    · subst h
      rw [linesOf_cons_nl, hcs,
        show joinL ([] :: l :: ls) = '\n' :: joinL (l :: ls) from rfl, ih]
    · rw [linesOf_cons_eq h hcs, joinL_cons_cons, ih]

theorem not_mem_nl_of_mem_linesOf :
    ∀ t l, l ∈ linesOf t → '\n' ∉ l := by
  intro t
  induction t with
  | nil =>
    intro l hl hm
    simp [linesOf] at hl
    subst hl
    simp at hm
  | cons c cs ih =>
    intro l hl
    rcases hcs : linesOf cs with _ | ⟨l0, ls⟩
    · exact absurd hcs (linesOf_ne_nil cs)
    by_cases h : c = '\n'
    · subst h
      rw [linesOf_cons_nl] at hl
      rcases List.mem_cons.mp hl with h1 | h1
      · subst h1; simp
      · exact ih l h1
    · rw [linesOf_cons_eq h hcs] at hl
      rcases List.mem_cons.mp hl with h1 | h1
      · subst h1
        intro hmem
        rcases List.mem_cons.mp hmem with h2 | h2
        · exact h h2.symm
        · exact ih l0 (by rw [hcs]; exact List.mem_cons_self _ _) h2
      · exact ih l (by rw [hcs]; exact List.mem_cons_of_mem _ h1)

theorem contScan_false_append {l : List Char} (h : '\n' ∉ l) (z : List Char) :
    contScan false (l ++ z) = l ++ contScan false z := by
  induction l with
  | nil => rfl
  | cons c cs ih =>
    have hc : ¬ c = '\n' := fun hc0 => h (by simp [hc0])
    have ih2 := ih (fun hm => h (List.mem_cons_of_mem _ hm))
    calc contScan false ((c :: cs) ++ z)
        = c :: contScan false (cs ++ z) := by
          rw [List.cons_append, contScan_false_cons, if_neg hc]
      _ = c :: (cs ++ contScan false z) := by rw [ih2]
      _ = (c :: cs) ++ contScan false z := by rw [List.cons_append]

theorem contScan_true_joinL :
    ∀ ls : List (List Char), (∀ l ∈ ls, '\n' ∉ l) →
      contScan true (joinL ls) = contLinesSpec ls := by
  intro ls
  induction ls with
  | nil => intro _; rfl
  | cons l ls ih =>
    intro hwf
    have hl : '\n' ∉ l := hwf l (List.mem_cons_self _ _)
    cases ls with
    | nil =>
      cases l with
      | nil => rfl
      | cons c l2 =>
        have hc : ¬ c = '\n' := fun hc0 => hl (by simp [hc0])
        have hl2 : '\n' ∉ l2 := fun hm => hl (List.mem_cons_of_mem _ hm)
        rw [joinL_single, contScan_true_cons, if_neg hc, contLinesSpec_single]
        by_cases hsp : isPySpace c = true
        · rw [if_pos hsp, if_pos hsp]
          have h0 := contScan_false_append hl2 []
          rw [contScan_nil] at h0
          simp only [List.append_nil] at h0
          rw [h0]
        · rw [if_neg hsp, if_neg hsp]
    | cons l2 ls2 =>
      have ihtail := ih (fun x hx => hwf x (List.mem_cons_of_mem _ hx))
      cases l with
      | nil =>
        rw [joinL_cons₂, List.nil_append, contScan_true_cons, if_pos rfl,
          contLinesSpec_nil_cons, ihtail]
      | cons c l3 =>
        have hc : ¬ c = '\n' := fun hc0 => hl (by simp [hc0])
        have hl3 : '\n' ∉ l3 := fun hm => hl (List.mem_cons_of_mem _ hm)
        rw [joinL_cons₂, List.cons_append, contScan_true_cons, if_neg hc,
          contLinesSpec_cons_cons]
        by_cases hsp : isPySpace c = true
        · rw [if_pos hsp, if_pos hsp, contScan_false_append hl3,
            contScan_false_cons, if_pos rfl, ihtail]
          simp
        · rw [if_neg hsp, if_neg hsp]

theorem findSecLines_single (sec l : List Char) :
    findSecLines sec [l] =
      (if secMatchesLine sec l then some l else none) := by
  by_cases h : secMatchesLine sec l = true
  · simp [findSecLines, h, contScan_nil]
  · simp [findSecLines, h]

theorem findSecLines_cons₂ (sec l l2 : List Char) (ls : List (List Char)) :
    findSecLines sec (l :: l2 :: ls) =
      (if secMatchesLine sec l then
        some (l ++ contScan true ('\n' :: joinL (l2 :: ls)))
       else findSecLines sec (l2 :: ls)) := rfl

theorem findSecLines_eq_blockLinesSpec {sec : List Char}
    (hsec : sec.all (fun c => c ≠ '.') = true) :
    ∀ ls : List (List Char), (∀ l ∈ ls, '\n' ∉ l) →
      findSecLines sec ls = blockLinesSpec sec ls := by
  intro ls
  induction ls with
  | nil => intro _; rfl
  | cons l ls ih =>
    intro hwf
    have hpre := secMatchesLine_eq_isPrefixOf hsec l
    cases ls with
    | nil =>
      rw [findSecLines_single, hpre]
      rfl
    | cons l2 ls2 =>
      have ihtail := ih (fun x hx => hwf x (List.mem_cons_of_mem _ hx))
      rw [findSecLines_cons₂, hpre,
        show blockLinesSpec sec (l :: l2 :: ls2) =
          (if sec.isPrefixOf l then some (l ++ '\n' :: contLinesSpec (l2 :: ls2))
           else blockLinesSpec sec (l2 :: ls2)) from rfl]
      by_cases h : sec.isPrefixOf l = true
      · rw [if_pos h, if_pos h, contScan_true_cons, if_pos rfl,
          contScan_true_joinL (l2 :: ls2)
            (fun x hx => hwf x (List.mem_cons_of_mem _ hx))]
      · rw [if_neg h, if_neg h, ihtail]

theorem findSecLines_eq_none_iff (sec : List Char) :
    ∀ ls : List (List Char),
      findSecLines sec ls = none ↔ ∀ l ∈ ls, secMatchesLine sec l = false := by
  intro ls
  induction ls with
  | nil => simp [findSecLines]
  | cons l ls ih =>
    by_cases h : secMatchesLine sec l = true
    · simp [findSecLines, h]
    · have hfalse : secMatchesLine sec l = false := Bool.eq_false_iff.mpr h
      simp only [findSecLines, hfalse, Bool.false_eq_true, if_false, ih,
        List.mem_cons]
      constructor
      · intro hall x hx
        rcases hx with h1 | h1
        · subst h1; exact hfalse
        · exact hall x h1
      · intro hall x hx
        exact hall x (Or.inr hx)

theorem strIn_nil_left (t : List Char) : strIn [] t = true := by
  cases t <;> simp [strIn, List.isPrefixOf, List.isEmpty]

-- Sanity checks: the three concrete scenarios of the specification, §8.
example :
    searchOne [("match", "session-timeout"), ("section", "line con 0")]
      ⟨"h", "line con 0\n session-timeout 15\n"⟩ = Except.ok "YES" := by decide

example :
    searchOne [("match", "session-timeout"), ("section", "line vty")]
      ⟨"h", "line con 0\n session-timeout 15\n"⟩ = Except.ok "NO" := by decide

example :
    searchOne [("match", "exec-timeout"), ("section", "line con 0")]
      ⟨"h", "line vty\n exec-timeout 10\nline con 0\n session-timeout 5\n"⟩ =
      Except.ok "NO" := by decide

example :
    searchOne [("match", "aaa new-model")] ⟨"h", "aaa new-model\n"⟩ =
      Except.ok "YES" := by decide

/-! ## Lemmas about `searchOne` and the loops -/

theorem searchOne_isOk {item : PyDict} {conf : Conf} {m : String}
    (hm : dictGet item "match" = some m) :
    ∃ v, searchOne item conf = Except.ok v := by
  cases hsec : dictGet item "section" with
  | none =>
    exact ⟨if strIn m.data conf.text.data then "YES" else "NO",
      by simp [searchOne, hsec, hm]⟩
  | some sec =>
    cases hfs : findSecBlock sec.data conf.text.data with
    | none => exact ⟨"NO", by simp [searchOne, hsec, hfs]⟩
    | some block =>
      exact ⟨if strIn m.data block then "YES" else "NO",
        by simp [searchOne, hsec, hfs, hm]⟩

theorem presentVal_spec {item : PyDict} {conf : Conf} {v : String}
    (h : searchOne item conf = Except.ok v) : presentVal item conf = v := by
  unfold presentVal
  rw [h]

theorem searchConfItems_eq_map {input_strings : List PyDict} {conf : Conf}
    (h : ∀ item ∈ input_strings, (dictGet item "match").isSome) :
    searchConfItems input_strings conf =
      Except.ok (input_strings.map
        (fun item => buildItem item conf (presentVal item conf))) := by
  induction input_strings with
  | nil => rfl
  | cons item rest ih =>
    have hm : (dictGet item "match").isSome :=
      h item (List.mem_cons_self _ _)
    rcases Option.isSome_iff_exists.mp hm with ⟨m, hm2⟩
    rcases @searchOne_isOk item conf m hm2 with ⟨v, hv⟩
    have ih2 := ih (fun x hx => h x (List.mem_cons_of_mem _ hx))
    simp only [searchConfItems, hv, ih2, List.map_cons, presentVal_spec hv]

theorem searchConfig_eq_flatten {input_strings : List PyDict}
    {config_list : List Conf}
    (h : ∀ item ∈ input_strings, (dictGet item "match").isSome) :
    searchConfig input_strings config_list =
      Except.ok ((config_list.map (fun conf =>
        input_strings.map
          (fun item => buildItem item conf (presentVal item conf)))).flatten) := by
  induction config_list with
  | nil => rfl
  | cons conf rest ih =>
    simp only [searchConfig, searchConfItems_eq_map h, ih, List.map_cons,
      List.flatten_cons]

theorem flatten_map_length {α β γ : Type} (c : List α) (i : List β)
    (g : α → β → γ) :
    ((c.map (fun x => i.map (g x))).flatten).length = c.length * i.length := by
  induction c with
  | nil => simp
  | cons x xs ih =>
    simp only [List.map_cons, List.flatten_cons, List.length_append,
      List.length_map, List.length_cons, ih, Nat.succ_mul]
    omega

/-! ## Heap lemmas -/

theorem heapLe_refl (h : Heap) : heapLe h h :=
  ⟨Nat.le_refl _, fun _ _ => rfl⟩

theorem heapLe_trans {h1 h2 h3 : Heap} (h12 : heapLe h1 h2)
    (h23 : heapLe h2 h3) : heapLe h1 h3 :=
  ⟨Nat.le_trans h12.1 h23.1,
   fun a ha => (h23.2 a (Nat.lt_of_lt_of_le ha h12.1)).trans (h12.2 a ha)⟩

theorem searchOneH_le (h : Heap) (a : Nat) (conf : Conf) :
    heapLe h (searchOneH h a conf).1 ∧
    (∀ r, (searchOneH h a conf).2 = Except.ok r → h.cells.length ≤ r) := by
  have hlen : (h.cells ++ [heapLoad h a]).length = h.cells.length + 1 := by
    simp
  have hext : ∀ i, i < h.cells.length →
      (h.cells ++ [heapLoad h a])[i]? = h.cells[i]? := by
    intro i hi
    rw [List.getElem?_append]
    exact if_pos hi
  cases hone : searchOne (heapLoad ⟨h.cells ++ [heapLoad h a]⟩ h.cells.length) conf with
  | error e =>
    constructor
    · show heapLe h (searchOneH h a conf).1
      simp only [searchOneH, heapAlloc, hone]
      exact ⟨by simp, hext⟩
    · intro r hr
      simp only [searchOneH, heapAlloc, hone] at hr
      simp at hr
  | ok present =>
    have hset : ∀ (d d2 : PyDict),
        heapLe h ⟨(((h.cells ++ [heapLoad h a]).set h.cells.length d).set
          h.cells.length d2)⟩ := by
      intro d d2
      constructor
      · simp
      · intro i hi
        have hne : h.cells.length ≠ i := Nat.ne_of_gt hi
        rw [List.getElem?_set_ne hne, List.getElem?_set_ne hne]
        exact hext i hi
    constructor
    · show heapLe h (searchOneH h a conf).1
      simp only [searchOneH, heapAlloc, hone, heapStore]
      exact hset _ _
    · intro r hr
      simp only [searchOneH, heapAlloc, hone, heapStore] at hr
      cases hr
      exact Nat.le_refl _

theorem searchItemsH_le (h : Heap) (addrs : List Nat) (conf : Conf) :
    heapLe h (searchItemsH h addrs conf).1 ∧
    (∀ rs, (searchItemsH h addrs conf).2 = Except.ok rs →
      ∀ r ∈ rs, h.cells.length ≤ r) := by
  induction addrs generalizing h with
  | nil =>
    refine ⟨heapLe_refl h, ?_⟩
    intro rs hrs r hr
    simp only [searchItemsH] at hrs
    cases hrs
    simp at hr
  | cons a rest ih =>
    rcases hone : searchOneH h a conf with ⟨h1, res1⟩
    have hone_le := searchOneH_le h a conf
    rw [hone] at hone_le
    cases res1 with
    | error e =>
      refine ⟨?_, ?_⟩
      · show heapLe h (searchItemsH h (a :: rest) conf).1
        simp only [searchItemsH, hone]
        exact hone_le.1
      · intro rs hrs
        simp only [searchItemsH, hone] at hrs
        simp at hrs
    | ok a2 =>
      have ha2 : h.cells.length ≤ a2 := hone_le.2 a2 rfl
      rcases hrest : searchItemsH h1 rest conf with ⟨h2, res2⟩
      have hrest_le := ih h1
      rw [hrest] at hrest_le
      cases res2 with
      | error e =>
        refine ⟨?_, ?_⟩
        · show heapLe h (searchItemsH h (a :: rest) conf).1
          simp only [searchItemsH, hone, hrest]
          exact heapLe_trans hone_le.1 hrest_le.1
        · intro rs hrs
          simp only [searchItemsH, hone, hrest] at hrs
          simp at hrs
      | ok tail =>
        refine ⟨?_, ?_⟩
        · show heapLe h (searchItemsH h (a :: rest) conf).1
          simp only [searchItemsH, hone, hrest]
          exact heapLe_trans hone_le.1 hrest_le.1
        · intro rs hrs r hr
          simp only [searchItemsH, hone, hrest] at hrs
          cases hrs
          rcases List.mem_cons.mp hr with h1eq | h1mem
          · subst h1eq; exact ha2
          · exact Nat.le_trans hone_le.1.1 (hrest_le.2 tail rfl r h1mem)

theorem searchConfigH_le (h : Heap) (addrs : List Nat) (confs : List Conf) :
    heapLe h (searchConfigH h addrs confs).1 ∧
    (∀ rs, (searchConfigH h addrs confs).2 = Except.ok rs →
      ∀ r ∈ rs, h.cells.length ≤ r) := by
  induction confs generalizing h with
  | nil =>
    refine ⟨heapLe_refl h, ?_⟩
    intro rs hrs r hr
    simp only [searchConfigH] at hrs
    cases hrs
    simp at hr
  | cons conf rest ih =>
    rcases hitems : searchItemsH h addrs conf with ⟨h1, res1⟩
    have hitems_le := searchItemsH_le h addrs conf
    rw [hitems] at hitems_le
    cases res1 with
    | error e =>
      refine ⟨?_, ?_⟩
      · show heapLe h (searchConfigH h addrs (conf :: rest)).1
        simp only [searchConfigH, hitems]
        exact hitems_le.1
      · intro rs hrs
        simp only [searchConfigH, hitems] at hrs
        simp at hrs
    | ok head =>
      rcases hrest : searchConfigH h1 addrs rest with ⟨h2, res2⟩
      have hrest_le := ih h1
      rw [hrest] at hrest_le
      cases res2 with
      | error e =>
        refine ⟨?_, ?_⟩
        · show heapLe h (searchConfigH h addrs (conf :: rest)).1
          simp only [searchConfigH, hitems, hrest]
          exact heapLe_trans hitems_le.1 hrest_le.1
        · intro rs hrs
          simp only [searchConfigH, hitems, hrest] at hrs
          simp at hrs
      | ok tail =>
        refine ⟨?_, ?_⟩
        · show heapLe h (searchConfigH h addrs (conf :: rest)).1
          simp only [searchConfigH, hitems, hrest]
          exact heapLe_trans hitems_le.1 hrest_le.1
        · intro rs hrs r hr
          simp only [searchConfigH, hitems, hrest] at hrs
          cases hrs
          rcases List.mem_append.mp hr with h1mem | h1mem
          · exact hitems_le.2 head rfl r h1mem
          · exact Nat.le_trans hitems_le.1.1 (hrest_le.2 tail rfl r h1mem)

/-! ## Claim theorems -/

/-- C3 (confirmed): for every document list and every check list whose
items are well-formed for the engine (each has a `match` key, and each
`section` value, when present, is inside the embedding domain), the search
returns exactly `|documents| * |checks|` verdicts, laid out as the
flattening of one verdict row per document (document order outer) each
containing one verdict per check (check order inner); for an empty
document list the result is the empty list (the flattening over `[]`). -/
theorem c3_count_and_order (input_strings : List PyDict)
    (config_list : List Conf)
    (hmatch : ∀ item ∈ input_strings, (dictGet item "match").isSome)
    (hsec : ∀ item ∈ input_strings,
      secEmbeddableOpt (dictGet item "section") = true) :
    ∃ vs, searchConfig input_strings config_list = Except.ok vs ∧
      vs.length = config_list.length * input_strings.length ∧
      vs = (config_list.map (fun conf => input_strings.map
        (fun item => buildItem item conf (presentVal item conf)))).flatten :=
  ⟨_, searchConfig_eq_flatten hmatch, flatten_map_length _ _ _, rfl⟩

/-- Witness for C3 at a concrete two-check, two-document input. -/
theorem c3_witness :
    (∀ item ∈ [[("ref", "2.1.1"), ("match", "aaa new-model")],
               [("match", "exec-timeout"), ("section", "line con 0")]],
      (dictGet item "match").isSome) ∧
    (∀ item ∈ [[("ref", "2.1.1"), ("match", "aaa new-model")],
               [("match", "exec-timeout"), ("section", "line con 0")]],
      secEmbeddableOpt (dictGet item "section") = true) ∧
    (∃ vs, searchConfig
        [[("ref", "2.1.1"), ("match", "aaa new-model")],
         [("match", "exec-timeout"), ("section", "line con 0")]]
        [⟨"h1", "aaa new-model\n"⟩, ⟨"h2", "line con 0\n exec-timeout 5\n"⟩] =
          Except.ok vs ∧
      vs.length = 2 * 2 ∧
      vs = ([⟨"h1", "aaa new-model\n"⟩,
             (⟨"h2", "line con 0\n exec-timeout 5\n"⟩ : Conf)].map (fun conf =>
        [[("ref", "2.1.1"), ("match", "aaa new-model")],
         [("match", "exec-timeout"), ("section", "line con 0")]].map
          (fun item => buildItem item conf (presentVal item conf)))).flatten) :=
  ⟨by decide, by decide, c3_count_and_order _ _ (by decide) (by decide)⟩

/-- C7 (confirmed): a check with no `section` and empty `matchText` yields
`present` = true ("YES") on every document, empty body included, because
Python's `"" in text` is always `True`. -/
theorem c7_empty_match_always_yes (item : PyDict) (conf : Conf)
    (hsec : dictGet item "section" = none)
    (hm : dictGet item "match" = some "") :
    searchOne item conf = Except.ok "YES" := by
  have hempty : ("" : String).data = [] := rfl
  simp [searchOne, hsec, hm, hempty, strIn_nil_left]

/-- Witness for C7: empty match, no section, on the empty document. -/
theorem c7_witness :
    dictGet [("match", "")] "section" = none ∧
    dictGet [("match", "")] "match" = some "" ∧
    searchOne [("match", "")] ⟨"h", ""⟩ = Except.ok "YES" :=
  ⟨by decide, by decide,
    c7_empty_match_always_yes _ _ (by decide) (by decide)⟩

/-- C8 (confirmed): the verdict list is a pure function of the document
list and the check list - two calls on identical inputs return identical
outputs (the embedding is stateless; the only I/O in the source is a
progress message that does not feed back into the result). -/
theorem c8_deterministic (i i2 : List PyDict) (c c2 : List Conf)
    (hi : i = i2) (hc : c = c2) :
    searchConfig i c = searchConfig i2 c2 := by
  rw [hi, hc]

/-- Witness for C8 at a concrete input. -/
theorem c8_witness :
    searchConfig [[("match", "aaa")]] [⟨"h", "aaa\n"⟩] =
      searchConfig [[("match", "aaa")]] [⟨"h", "aaa\n"⟩] :=
  c8_deterministic _ _ _ _ rfl rfl

theorem searchOnePd_eq_searchOne (item : PyDict) (conf : Conf) :
    searchOnePd item conf = searchOne item conf := rfl

theorem searchConfItemsPd_eq (i : List PyDict) (conf : Conf) :
    searchConfItemsPd i conf = searchConfItems i conf := by
  induction i with
  | nil => rfl
  | cons item rest ih =>
    simp only [searchConfItemsPd, searchConfItems, searchOnePd_eq_searchOne, ih]

/-- C10 (confirmed): the `searchConfig` of `pd-search_config.py` and the
`searchConfig` of `search_config.py` compute the same function: on every
document list and check list they return equal results (equal verdict
lists, and equal errors on the inputs where they raise). -/
theorem c10_implementations_agree (input_strings : List PyDict)
    (config_list : List Conf) :
    searchConfigPd input_strings config_list =
      searchConfig input_strings config_list := by
  induction config_list with
  | nil => rfl
  | cons conf rest ih =>
    simp only [searchConfigPd, searchConfig, searchConfItemsPd_eq, ih]

/-- C5 (corrected) - counterexample: the claim says every check yields
`present` = false on a document with empty body, but a check with empty
`matchText` and no `section` yields "YES" there (`"" in ""` is `True` in
Python): the code produces a verdict with `configured = "YES"`. -/
theorem c5_counterexample :
    searchConfig [[("match", "")]] [⟨"h", ""⟩] =
      Except.ok [[("match", ""), ("hostname", "h"), ("configured", "YES")]] := by
  decide

/-- C5 (corrected) - amended claim: every check with a nonempty
`matchText` (with or without a `section` inside the embedding domain)
yields `present` = false against a document whose body is the empty
string. -/
theorem c5_amended_empty_body (item : PyDict) (conf : Conf) (m : String)
    (hbody : conf.text = "")
    (hm : dictGet item "match" = some m)
    (hm2 : m ≠ "")
    (hsecdom : secEmbeddableOpt (dictGet item "section") = true) :
    searchOne item conf = Except.ok "NO" := by
  have hdata : conf.text.data = [] := by rw [hbody]
  have hmdata : m.data ≠ [] := by
    intro h0
    exact hm2 (String.ext (h0.trans rfl))
  have hisEmpty : m.data.isEmpty = false := by
    cases hml : m.data with
    | nil => exact absurd hml hmdata
    | cons c cs => rfl
  cases hs : dictGet item "section" with
  | none =>
    simp only [searchOne, hs, hm, hdata]
    rw [show strIn m.data [] = m.data.isEmpty from rfl, hisEmpty]
    rfl
  | some s =>
    have hfind : findSecBlock s.data conf.text.data = none ∨
        findSecBlock s.data conf.text.data = some [] := by
      rw [hdata]
      cases hmatch0 : secMatchesLine s.data [] with
      | false =>
        left
        simp [findSecBlock, linesOf, findSecLines, hmatch0]
      | true =>
        right
        simp [findSecBlock, linesOf, findSecLines, hmatch0, contScan_nil]
    rcases hfind with hf | hf
    · simp [searchOne, hs, hf]
    · simp only [searchOne, hs, hf, hm]
      rw [show strIn m.data [] = m.data.isEmpty from rfl, hisEmpty]
      rfl

/-- Witness for the amended C5: a sectionless check and a sectioned check,
both with nonempty match, on the empty document. -/
theorem c5_amended_witness :
    (⟨"h", ""⟩ : Conf).text = "" ∧
    dictGet [("match", "vtp mode")] "match" = some "vtp mode" ∧
    ("vtp mode" : String) ≠ "" ∧
    secEmbeddableOpt (dictGet [("match", "vtp mode")] "section") = true ∧
    searchOne [("match", "vtp mode")] ⟨"h", ""⟩ = Except.ok "NO" :=
  ⟨rfl, by decide, by decide, by decide,
    c5_amended_empty_body [("match", "vtp mode")] ⟨"h", ""⟩ "vtp mode" rfl
      (by decide) (by decide) (by decide)⟩

/-- C2 (corrected) - counterexample: body `"sec\n\n x\n"`, check
`{match: " x", section: "sec"}`.  Its line list is
`["sec", "", " x", ""]`; by the claim the block ends at the second line
(the empty line does not begin with a space or tab), so the block is
`"sec\n"`, which does not contain `" x"` - the claim predicts
`present` = false.  The code answers "YES": the greedy `[\n\r]*` of the
pattern swallows the blank line and the block goes on to `" x\n"`. -/
theorem c2_counterexample :
    linesOf ("sec\n\n x\n" : String).data =
        [['s', 'e', 'c'], [], [' ', 'x'], []] ∧
    searchOne [("match", " x"), ("section", "sec")] ⟨"h", "sec\n\n x\n"⟩ =
        Except.ok "YES" ∧
    strIn (" x" : String).data ("sec\n" : String).data = false :=
  ⟨by decide, by decide, by decide⟩

/-- C2 (corrected) - amended claim: for a check whose section is literal
(no regex metacharacters) and a body without carriage returns, the
extracted block is the first line beginning with the section string plus
the following lines, where a line beginning with whitespace is included
with its newline, a blank line contributes its newline and the block
continues past it, and the block ends at the first nonempty line that
starts with a non-whitespace character (or at end of document);
`present` is "YES" iff `matchText` occurs in that block. -/
theorem c2_amended_block_spec (item : PyDict) (conf : Conf) (sec m : String)
    (hsec : dictGet item "section" = some sec)
    (hm : dictGet item "match" = some m)
    (hlit : secLiteral sec.data = true)
    (hcr : noCR conf.text.data = true) :
    searchOne item conf = Except.ok
      (match blockLinesSpec sec.data (linesOf conf.text.data) with
       | none => "NO"
       | some b => if strIn m.data b then "YES" else "NO") := by
  have hdot : sec.data.all (fun c => c ≠ '.') = true := by
    have h0 := hlit
    unfold secLiteral at h0
    simp only [Bool.and_eq_true] at h0
    exact h0.2
  have heq := findSecLines_eq_blockLinesSpec hdot (linesOf conf.text.data)
    (fun l hl => not_mem_nl_of_mem_linesOf conf.text.data l hl)
  cases hb : blockLinesSpec sec.data (linesOf conf.text.data) with
  | none =>
    have hfind : findSecBlock sec.data conf.text.data = none := by
      unfold findSecBlock
      rw [heq, hb]
    simp [searchOne, hsec, hfind]
  | some b =>
    have hfind : findSecBlock sec.data conf.text.data = some b := by
      unfold findSecBlock
      rw [heq, hb]
    simp [searchOne, hsec, hfind, hm]

/-- Witness for the amended C2 on the specification's boundary scenario:
body `"line vty\n exec-timeout 10\nline con 0\n session-timeout 5\n"`,
check `{match: "exec-timeout", section: "line con 0"}`. -/
theorem c2_amended_witness :
    dictGet [("match", "exec-timeout"), ("section", "line con 0")] "section" =
        some "line con 0" ∧
    dictGet [("match", "exec-timeout"), ("section", "line con 0")] "match" =
        some "exec-timeout" ∧
    secLiteral ("line con 0" : String).data = true ∧
    noCR ("line vty\n exec-timeout 10\nline con 0\n session-timeout 5\n"
        : String).data = true ∧
    searchOne [("match", "exec-timeout"), ("section", "line con 0")]
        ⟨"h", "line vty\n exec-timeout 10\nline con 0\n session-timeout 5\n"⟩ =
      Except.ok
        (match blockLinesSpec ("line con 0" : String).data
            (linesOf ("line vty\n exec-timeout 10\nline con 0\n session-timeout 5\n"
              : String).data) with
         | none => "NO"
         | some b => if strIn ("exec-timeout" : String).data b then "YES" else "NO") :=
  ⟨by decide, by decide, by decide, by decide,
    c2_amended_block_spec
      [("match", "exec-timeout"), ("section", "line con 0")]
      ⟨"h", "line vty\n exec-timeout 10\nline con 0\n session-timeout 5\n"⟩
      "line con 0" "exec-timeout"
      (by decide) (by decide) (by decide) (by decide)⟩

/-- C6 (corrected) - counterexample: section `"li.e"`, body
`"lixe\n timeout x\n"`, match `"timeout"`.  No line of the body begins
with the string `"li.e"`, yet the code answers "YES", because the
unescaped `'.'` matches the `'x'` of `"lixe"`; so `present` = false does
not hold whenever no line begins with the section string. -/
theorem c6_counterexample :
    noHeaderLine ("li.e" : String).data ("lixe\n timeout x\n" : String).data =
        true ∧
    searchOne [("match", "timeout"), ("section", "li.e")]
        ⟨"h", "lixe\n timeout x\n"⟩ = Except.ok "YES" :=
  ⟨by decide, by decide⟩

/-- C6 (corrected) - amended claim: for a check whose section contains no
regex metacharacters, if no line of the body begins with the section
string then `present` = "NO" unconditionally, regardless of the match
text (the code does not fall back to a whole-document search; a found
verdict would require a header line). -/
theorem c6_amended_section_absent (item : PyDict) (conf : Conf)
    (sec m : String)
    (hsec : dictGet item "section" = some sec)
    (hm : dictGet item "match" = some m)
    (hlit : secLiteral sec.data = true)
    (hnone : noHeaderLine sec.data conf.text.data = true) :
    searchOne item conf = Except.ok "NO" := by
  have hdot : sec.data.all (fun c => c ≠ '.') = true := by
    have h0 := hlit
    unfold secLiteral at h0
    simp only [Bool.and_eq_true] at h0
    exact h0.2
  unfold noHeaderLine at hnone
  have hall : ∀ l ∈ linesOf conf.text.data,
      secMatchesLine sec.data l = false := by
    intro l hl
    have h1 := List.all_eq_true.mp hnone l hl
    have h2 : sec.data.isPrefixOf l = false := by
      cases hx : sec.data.isPrefixOf l
      · rfl
      · rw [hx] at h1; exact absurd h1 (by simp)
    rw [secMatchesLine_eq_isPrefixOf hdot, h2]
  have hfind : findSecBlock sec.data conf.text.data = none := by
    unfold findSecBlock
    exact (findSecLines_eq_none_iff _ _).mpr hall
  simp [searchOne, hsec, hfind]

/-- Witness for the amended C6: the specification's §8 scenario - body
`"line con 0\n session-timeout 15\n"`, section `"line vty"` which heads no
line, match `"session-timeout"` which does occur in the body. -/
theorem c6_amended_witness :
    dictGet [("match", "session-timeout"), ("section", "line vty")]
        "section" = some "line vty" ∧
    dictGet [("match", "session-timeout"), ("section", "line vty")]
        "match" = some "session-timeout" ∧
    secLiteral ("line vty" : String).data = true ∧
    noHeaderLine ("line vty" : String).data
        ("line con 0\n session-timeout 15\n" : String).data = true ∧
    searchOne [("match", "session-timeout"), ("section", "line vty")]
        ⟨"h", "line con 0\n session-timeout 15\n"⟩ = Except.ok "NO" :=
  ⟨by decide, by decide, by decide, by decide,
    c6_amended_section_absent
      [("match", "session-timeout"), ("section", "line vty")]
      ⟨"h", "line con 0\n session-timeout 15\n"⟩ "line vty" "session-timeout"
      (by decide) (by decide) (by decide) (by decide)⟩

/-- C1 (corrected) - counterexample: section `"a.c"` contains the regex
metacharacter `'.'`.  No escaping happens and no configuration error is
raised: the search succeeds, and it matches a document in which no line
literally begins with `"a.c"` (the `'.'` silently acts as a wildcard on
the line `"axc secret"`), producing `configured = "YES"`.  So the code
neither keeps the comparison a literal prefix test nor raises: it
silently interprets the section string as a pattern. -/
theorem c1_counterexample :
    noHeaderLine ("a.c" : String).data ("axc secret\n" : String).data = true ∧
    searchConfig [[("match", "secret"), ("section", "a.c")]]
        [⟨"h", "axc secret\n"⟩] =
      Except.ok [[("match", "secret"), ("section", "a.c"),
        ("hostname", "h"), ("configured", "YES")]] :=
  ⟨by decide, by decide⟩

/-- C1 (corrected) - amended claim: the engine performs no escaping and
raises no error for sections that are well-formed patterns: every check
whose section is inside the embedding domain gets an ordinary verdict,
and the section-header comparison follows pattern semantics - a block is
extracted iff some line of the body matches the section character by
character with `'.'` acting as a wildcard for any non-newline character
(a literal prefix test exactly when the section contains no `'.'`). -/
theorem c1_amended_pattern_semantics (item : PyDict) (conf : Conf)
    (sec m : String)
    (hsec : dictGet item "section" = some sec)
    (hm : dictGet item "match" = some m)
    (hemb : secEmbeddable sec.data = true) :
    (∃ v, searchOne item conf = Except.ok v) ∧
    ((findSecBlock sec.data conf.text.data).isSome = true ↔
      ∃ l ∈ linesOf conf.text.data, secMatchesLine sec.data l = true) := by
  refine ⟨searchOne_isOk hm, ?_⟩
  rw [Option.isSome_iff_ne_none]
  constructor
  · intro hne
    by_contra hnex
    push_neg at hnex
    apply hne
    unfold findSecBlock
    refine (findSecLines_eq_none_iff _ _).mpr ?_
    intro l hl
    cases hx : secMatchesLine sec.data l
    · rfl
    · exact absurd hx (hnex l hl)
  · rintro ⟨l, hl, hml⟩ hnone
    unfold findSecBlock at hnone
    have hfalse := (findSecLines_eq_none_iff _ _).mp hnone l hl
    rw [hml] at hfalse
    exact absurd hfalse (by simp)

/-- Witness for the amended C1 at a concrete dotted section. -/
theorem c1_amended_witness :
    dictGet [("match", "y"), ("section", "a.c")] "section" = some "a.c" ∧
    dictGet [("match", "y"), ("section", "a.c")] "match" = some "y" ∧
    secEmbeddable ("a.c" : String).data = true ∧
    ((∃ v, searchOne [("match", "y"), ("section", "a.c")] ⟨"h", "axc y\n"⟩ =
        Except.ok v) ∧
     ((findSecBlock ("a.c" : String).data ("axc y\n" : String).data).isSome =
        true ↔
      ∃ l ∈ linesOf ("axc y\n" : String).data,
        secMatchesLine ("a.c" : String).data l = true)) :=
  ⟨by decide, by decide, by decide,
    c1_amended_pattern_semantics [("match", "y"), ("section", "a.c")]
      ⟨"h", "axc y\n"⟩ "a.c" "y" (by decide) (by decide) (by decide)⟩

/-- C4 (corrected) - counterexample: the check `{section: "sec"}` has no
`matchText`, yet with a document whose body has no `"sec"` header the
search does not fail at all: it silently gives the invalid check a
verdict (`configured = "NO"`), because `item["match"]` is only read after
a section block is found. -/
theorem c4_counterexample :
    searchConfig [[("section", "sec")]] [⟨"h", "x\n"⟩] =
      Except.ok [[("section", "sec"), ("hostname", "h"),
        ("configured", "NO")]] := by
  decide

/-- C4 (corrected) - amended claim: a check missing `matchText` raises a
`KeyError` only when its `match` field is actually read - for a
sectionless check as soon as it is paired with a document (aborting the
whole call with no verdict list, though searches of earlier checks have
already run), and for a sectioned check only when its section is found in
the document; a sectioned check whose section is absent is silently given
a "NO" verdict.  There is no up-front validation of the check list. -/
theorem c4_amended_keyerror_behavior (item : PyDict) (conf : Conf)
    (hm : dictGet item "match" = none) :
    (dictGet item "section" = none →
      ∀ rest confs, searchConfig (item :: rest) (conf :: confs) =
        Except.error "KeyError: match") ∧
    (∀ s, dictGet item "section" = some s →
      (findSecBlock s.data conf.text.data).isSome = true →
      searchOne item conf = Except.error "KeyError: match") ∧
    (∀ s, dictGet item "section" = some s →
      findSecBlock s.data conf.text.data = none →
      searchOne item conf = Except.ok "NO") := by
  refine ⟨?_, ?_, ?_⟩
  · intro hs rest confs
    have h1 : searchOne item conf = Except.error "KeyError: match" := by
      simp [searchOne, hs, hm]
    simp only [searchConfig, searchConfItems, h1]
  · intro s hs hsome
    rcases Option.isSome_iff_exists.mp hsome with ⟨b, hb⟩
    simp [searchOne, hs, hb, hm]
  · intro s hs hnone
    simp [searchOne, hs, hnone]

/-- Witness for the amended C4: a check with neither `match` nor
`section` aborts the whole search with a `KeyError` on the first
document. -/
theorem c4_amended_witness :
    dictGet [("ref", "1.1")] "match" = none ∧
    searchConfig [[("ref", "1.1")]] [⟨"h", "x\n"⟩] =
      Except.error "KeyError: match" :=
  ⟨by decide,
    (c4_amended_keyerror_behavior [("ref", "1.1")] ⟨"h", "x\n"⟩
      (by decide)).1 (by decide) [] []⟩

/-- C9 (confirmed): the search mutates none of its inputs.  In the heap
model every address allocated before the call - in particular each cell
holding a caller's check dictionary - holds the same object afterwards
(the loop body only writes to the fresh `deepcopy` cells), and every
verdict returned is such a fresh cell (an address allocated during the
call); documents are only ever read. -/
theorem c9_no_input_mutation (h : Heap) (addrs : List Nat)
    (confs : List Conf) (a : Nat) (ha : a < h.cells.length) :
    (searchConfigH h addrs confs).1.cells[a]? = h.cells[a]? ∧
    (∀ rs, (searchConfigH h addrs confs).2 = Except.ok rs →
      ∀ r ∈ rs, h.cells.length ≤ r) :=
  ⟨(searchConfigH_le h addrs confs).1.2 a ha,
   (searchConfigH_le h addrs confs).2⟩

/-- Witness for C9: one check dictionary on the heap, one document. -/
theorem c9_witness :
    0 < (Heap.mk [[("match", "aaa")]]).cells.length ∧
    ((searchConfigH ⟨[[("match", "aaa")]]⟩ [0] [⟨"h", "aaa\n"⟩]).1.cells[0]? =
      (Heap.mk [[("match", "aaa")]]).cells[0]? ∧
    (∀ rs, (searchConfigH ⟨[[("match", "aaa")]]⟩ [0] [⟨"h", "aaa\n"⟩]).2 =
        Except.ok rs →
      ∀ r ∈ rs, (Heap.mk [[("match", "aaa")]]).cells.length ≤ r)) :=
  ⟨by decide,
    c9_no_input_mutation ⟨[[("match", "aaa")]]⟩ [0] [⟨"h", "aaa\n"⟩] 0
      (by decide)⟩
